import Mathlib

/-!
Formal model of the numerical functions in the notebook
`2dv516-python-2-part-1-broadcasting.ipynb`.

One-dimensional numpy arrays are modelled as `List ℝ`, two-dimensional
arrays as `List (List ℝ)` (a genuine 2-D numpy array is rectangular; the
rectangularity assumption appears as an explicit hypothesis where a
function relies on it).  Operations that can raise a Python/numpy error
(an out-of-range index, a pair of non-broadcastable shapes) return
`Option`, with `none` standing for the raised error.  Floating-point
numbers are idealised as real numbers, so `np.sqrt` is `Real.sqrt` and
all identities hold exactly.
-/

namespace Broadcasting

/-- Sequencing helper for loops that may fail: apply `f` to each element in
order and collect the results, propagating the first error.  This is the
shape of every `for i in range(n): Z[i] = ...` loop in the notebook once
errors are made explicit. -/
def mapOpt {α β : Type} (f : α → Option β) : List α → Option (List β)
  | [] => some []
  | a :: as => do
      let b ← f a
      let bs ← mapOpt f as
      pure (b :: bs)

/-- Elementwise subtraction `x - y` of two 1-D numpy arrays, including numpy's
1-D broadcasting rule: the shapes are compatible when the lengths agree or one
of them is 1; otherwise numpy raises a broadcast error (`none`). -/
def vsub (x y : List ℝ) : Option (List ℝ) :=
  if x.length = y.length then some (List.zipWith (fun a b => a - b) x y)
  else if x.length = 1 then some (y.map (fun b => x.getD 0 0 - b))
  else if y.length = 1 then some (x.map (fun a => a - y.getD 0 0))
  else none

/-- Elementwise product `x * y` of two 1-D numpy arrays, with the same 1-D
broadcasting rule as `vsub`. -/
def vmul (x y : List ℝ) : Option (List ℝ) :=
  if x.length = y.length then some (List.zipWith (fun a b => a * b) x y)
  else if x.length = 1 then some (y.map (fun b => x.getD 0 0 * b))
  else if y.length = 1 then some (x.map (fun a => a * y.getD 0 0))
  else none

/-- The notebook's `mult_vect(x, y) = x * y` (1-D version). -/
def mult_vect (x y : List ℝ) : Option (List ℝ) := vmul x y

/-- The notebook's `mult_loop`: `z = np.empty(x.shape)` followed by
`for i in range(x.shape[0]): z[i] = x[i] * y[i]`.  Reading `y[i]` raises an
IndexError (`none`) when `i` is out of range for `y`. -/
def mult_loop (x y : List ℝ) : Option (List ℝ) :=
  mapOpt (fun i => do
      let a ← x.get? i
      let b ← y.get? i
      pure (a * b)) (List.range x.length)

/-- The notebook's `eucl_dist`: fill `z[i] = (x[i] - y[i])**2` for
`i in range(x.shape[0])`, then return `np.sqrt(np.sum(z))`.  Reading `y[i]`
raises an IndexError (`none`) when `i` is out of range for `y`. -/
noncomputable def eucl_dist (x y : List ℝ) : Option ℝ := do
  let z ← mapOpt (fun i => do
      let a ← x.get? i
      let b ← y.get? i
      pure ((a - b) ^ 2)) (List.range x.length)
  pure (Real.sqrt z.sum)

/-- The notebook's `loop1`: `Z[i, j] = eucl_dist(X[i], X[j])` over the double
loop `for i in range(n): for j in range(n)` with `n = X.shape[0]`. -/
noncomputable def loop1 (X : List (List ℝ)) : Option (List (List ℝ)) :=
  mapOpt (fun i =>
    mapOpt (fun j => do
        let xi ← X.get? i
        let xj ← X.get? j
        eucl_dist xi xj) (List.range X.length)) (List.range X.length)

/-- The notebook's `loop2`:
`Z[i, j] = np.sqrt(np.sum((X[i] - X[j])**2))` over the same double loop. -/
noncomputable def loop2 (X : List (List ℝ)) : Option (List (List ℝ)) :=
  mapOpt (fun i =>
    mapOpt (fun j => do
        let xi ← X.get? i
        let xj ← X.get? j
        let dv ← vsub xi xj
        pure (Real.sqrt ((dv.map (fun t => t ^ 2)).sum))) (List.range X.length))
    (List.range X.length)

/-- The notebook's `broadcast1`:
`Z[i] = np.sqrt(np.sum((X[i] - X)**2, axis=-1))` for `i in range(n)`.
Subtracting the row `X[i]` from the whole array applies `vsub` to each row. -/
noncomputable def broadcast1 (X : List (List ℝ)) : Option (List (List ℝ)) :=
  mapOpt (fun i => do
      let xi ← X.get? i
      mapOpt (fun row => do
          let dv ← vsub xi row
          pure (Real.sqrt ((dv.map (fun t => t ^ 2)).sum))) X) (List.range X.length)

/-- The notebook's `broadcast2`:
`Z = np.sqrt(np.sum((X.reshape(m, 1, n) - X.reshape(1, m, n))**2, axis=-1))`.
The two reshaped views broadcast to the `(m, m, n)` array whose `(i, j)` slice
is `X[i] - X[j]`; squaring, summing over the last axis and taking the square
root yields one entry per pair of rows. -/
noncomputable def broadcast2 (X : List (List ℝ)) : Option (List (List ℝ)) :=
  mapOpt (fun xi =>
    mapOpt (fun xj => do
        let dv ← vsub xi xj
        pure (Real.sqrt ((dv.map (fun t => t ^ 2)).sum))) X) X

/-- The value `np.sqrt(np.sum((x - y)**2))` for two rows of equal length,
after the subtraction has succeeded. -/
noncomputable def rowDist (x y : List ℝ) : ℝ :=
  Real.sqrt (((List.zipWith (fun a b => a - b) x y).map (fun t => t ^ 2)).sum)

/-- A 2-D array of shape `(n, d)`: every row has length `d` (what numpy
guarantees for a genuine 2-D `ndarray`). -/
def rect (X : List (List ℝ)) (d : ℕ) : Prop := ∀ row ∈ X, row.length = d

/-- The mathematical Euclidean distance between rows `i` and `j` of `X`,
feature dimension `d`: the specification-level value of every pairwise-distance
entry. -/
noncomputable def entry (X : List (List ℝ)) (d i j : ℕ) : ℝ :=
  Real.sqrt (∑ k ∈ Finset.range d, ((X.getD i []).getD k 0 - (X.getD j []).getD k 0) ^ 2)

/-- The full specification-level distance matrix of `X` (dimension `d`). -/
noncomputable def specM (X : List (List ℝ)) (d : ℕ) : List (List ℝ) :=
  (List.range X.length).map (fun i => (List.range X.length).map (fun j => entry X d i j))

/-- Reading a valid index with `get?` succeeds and agrees with `getD`. -/
theorem get?_eq_some_getD {α : Type} (l : List α) (i : ℕ) (d : α) (h : i < l.length) :
    l.get? i = some (l.getD i d) := by
  induction l generalizing i with
  | nil => simp at h
  | cons a as ih =>
      cases i with
      | zero => rfl
      | succ i =>
          simp only [List.length_cons, Nat.succ_lt_succ_iff] at h
          simpa using ih i h

/-- When the body succeeds everywhere on the list, the loop succeeds and
produces the corresponding map. -/
theorem mapOpt_eq_map {α β : Type} (f : α → Option β) (g : α → β) (l : List α)
    (h : ∀ a ∈ l, f a = some (g a)) : mapOpt f l = some (l.map g) := by
  induction l with
  | nil => rfl
  | cons a as ih =>
      have ha : f a = some (g a) := h a (List.mem_cons_self a as)
      have has : mapOpt f as = some (as.map g) :=
        ih (fun x hx => h x (List.mem_cons_of_mem a hx))
      simp [mapOpt, ha, has]

/-- If the body fails on some element of the list, the whole loop fails. -/
theorem mapOpt_eq_none {α β : Type} (f : α → Option β) (l : List α) (a : α)
    (ha : a ∈ l) (hf : f a = none) : mapOpt f l = none := by
  induction l with
  | nil => simp at ha
  | cons b bs ih =>
      rcases List.mem_cons.mp ha with h | h
      · subst h
        simp [mapOpt, hf]
      · cases hb : f b with
        | none => simp [mapOpt, hb]
        | some v => simp [mapOpt, hb, ih h]

/-- The sum of a function mapped over `List.range n` is the `Finset.range`
sum. -/
theorem sum_map_range (f : ℕ → ℝ) (n : ℕ) :
    ((List.range n).map f).sum = ∑ k ∈ Finset.range n, f k := by
  induction n with
  | zero => simp
  | succ n ih => rw [List.range_succ, Finset.sum_range_succ]; simp [ih]

/-- Mapping over a list is mapping its `getD` values over `List.range`. -/
theorem map_eq_range_map {α β : Type} (g : α → β) (d : α) (l : List α) :
    l.map g = (List.range l.length).map (fun i => g (l.getD i d)) := by
  induction l with
  | nil => rfl
  | cons a as ih =>
      rw [List.length_cons, List.range_succ_eq_map]
      simp only [List.map_cons, List.map_map]
      refine congrArg (g a :: ·) ?_
      rw [ih]
      exact List.map_congr_left (fun i _ => rfl)

/-- Indexing into a map over `List.range`. -/
theorem getD_range_map {β : Type} (f : ℕ → β) (n i : ℕ) (d : β) (h : i < n) :
    ((List.range n).map f).getD i d = f i := by
  have h1 : ((List.range n).map f).get? i = some (f i) := by
    rw [List.get?_map, List.get?_range h]
    rfl
  rw [List.getD_eq_get?, h1]
  rfl

/-- A `zipWith` over equal-length lists, written as a map over indices. -/
theorem zipWith_eq_range_map (op : ℝ → ℝ → ℝ) (x y : List ℝ) (h : x.length = y.length) :
    List.zipWith op x y =
      (List.range x.length).map (fun i => op (x.getD i 0) (y.getD i 0)) := by
  induction x generalizing y with
  | nil => rfl
  | cons a as ih =>
      cases y with
      | nil => simp at h
      | cons b bs =>
          simp only [List.length_cons, Nat.succ.injEq] at h
          rw [List.zipWith_cons_cons, List.length_cons, List.range_succ_eq_map]
          simp only [List.map_cons, List.map_map]
          refine congrArg (op a b :: ·) ?_
          rw [ih bs h]
          exact List.map_congr_left (fun i _ => rfl)

/-- Subtraction of equal-length 1-D arrays needs no broadcasting. -/
theorem vsub_of_eq_length (x y : List ℝ) (h : x.length = y.length) :
    vsub x y = some (List.zipWith (fun a b => a - b) x y) := by
  rw [vsub, if_pos h]

/-- The squared-difference sum of two rows of length `d`, as a `Finset` sum
over the feature indices. -/
theorem sq_sum_eq (x y : List ℝ) (d : ℕ) (hx : x.length = d) (hy : y.length = d) :
    ((List.zipWith (fun a b => a - b) x y).map (fun t => t ^ 2)).sum =
      ∑ k ∈ Finset.range d, (x.getD k 0 - y.getD k 0) ^ 2 := by
  rw [zipWith_eq_range_map (fun a b => a - b) x y (by rw [hx, hy]), List.map_map, hx,
    sum_map_range]
  simp [Function.comp]

/-- `rowDist` on rows of length `d` is the specification-level distance. -/
theorem rowDist_eq (x y : List ℝ) (d : ℕ) (hx : x.length = d) (hy : y.length = d) :
    rowDist x y = Real.sqrt (∑ k ∈ Finset.range d, (x.getD k 0 - y.getD k 0) ^ 2) := by
  rw [rowDist, sq_sum_eq x y d hx hy]

/-- Evaluation of `eucl_dist` when `y` has at least as many entries as `x`:
no index error occurs and the result is the square root of the sum of squared
differences over the indices of `x`. -/
theorem eucl_dist_eq (x y : List ℝ) (h : x.length ≤ y.length) :
    eucl_dist x y =
      some (Real.sqrt (∑ k ∈ Finset.range x.length, (x.getD k 0 - y.getD k 0) ^ 2)) := by
  have hmap : mapOpt (fun i => do
      let a ← x.get? i
      let b ← y.get? i
      pure ((a - b) ^ 2)) (List.range x.length) =
      some ((List.range x.length).map (fun i => (x.getD i 0 - y.getD i 0) ^ 2)) := by
    refine mapOpt_eq_map _ _ _ (fun i hi => ?_)
    have hix : i < x.length := List.mem_range.mp hi
    rw [get?_eq_some_getD x i 0 hix, get?_eq_some_getD y i 0 (lt_of_lt_of_le hix h)]
    rfl
  rw [eucl_dist, hmap]
  simp [sum_map_range]

/-- Rows of a rectangular array all have length `d`. -/
theorem rect_getD (X : List (List ℝ)) (d : ℕ) (hrect : rect X d) (i : ℕ)
    (hi : i < X.length) : (X.getD i []).length = d := by
  have h := get?_eq_some_getD X i [] hi
  exact hrect _ (List.get?_mem h)

/-- Entry `(i, j)` of the specification-level matrix. -/
theorem specM_getD (X : List (List ℝ)) (d i j : ℕ) (hi : i < X.length)
    (hj : j < X.length) : ((specM X d).getD i []).getD j 0 = entry X d i j := by
  rw [specM, getD_range_map _ _ _ [] hi, getD_range_map _ _ _ 0 hj]

/-- On a rectangular array, `loop2` succeeds and computes the
specification-level distance matrix. -/
theorem loop2_eq_specM (X : List (List ℝ)) (d : ℕ) (hrect : rect X d) :
    loop2 X = some (specM X d) := by
  rw [loop2, specM]
  refine mapOpt_eq_map _ _ _ (fun i hi => ?_)
  have hiX : i < X.length := List.mem_range.mp hi
  refine mapOpt_eq_map _ _ _ (fun j hj => ?_)
  have hjX : j < X.length := List.mem_range.mp hj
  rw [get?_eq_some_getD X i [] hiX, get?_eq_some_getD X j [] hjX]
  have hvs := vsub_of_eq_length (X.getD i []) (X.getD j [])
    (by rw [rect_getD X d hrect i hiX, rect_getD X d hrect j hjX])
  simp only [Option.bind_eq_bind, Option.some_bind, hvs]
  rw [entry, ← sq_sum_eq (X.getD i []) (X.getD j []) d (rect_getD X d hrect i hiX)
    (rect_getD X d hrect j hjX)]
  rfl

/-- On a rectangular array, `loop1` succeeds and computes the
specification-level distance matrix. -/
theorem loop1_eq_specM (X : List (List ℝ)) (d : ℕ) (hrect : rect X d) :
    loop1 X = some (specM X d) := by
  rw [loop1, specM]
  refine mapOpt_eq_map _ _ _ (fun i hi => ?_)
  have hiX : i < X.length := List.mem_range.mp hi
  refine mapOpt_eq_map _ _ _ (fun j hj => ?_)
  have hjX : j < X.length := List.mem_range.mp hj
  rw [get?_eq_some_getD X i [] hiX, get?_eq_some_getD X j [] hjX]
  have hed := eucl_dist_eq (X.getD i []) (X.getD j [])
    (by rw [rect_getD X d hrect i hiX, rect_getD X d hrect j hjX])
  simp only [Option.bind_eq_bind, Option.some_bind, hed]
  rw [entry, rect_getD X d hrect i hiX]

/-- On a rectangular array, `broadcast1` succeeds and computes the
specification-level distance matrix. -/
theorem broadcast1_eq_specM (X : List (List ℝ)) (d : ℕ) (hrect : rect X d) :
    broadcast1 X = some (specM X d) := by
  rw [broadcast1, specM]
  refine mapOpt_eq_map _ _ _ (fun i hi => ?_)
  have hiX : i < X.length := List.mem_range.mp hi
  rw [get?_eq_some_getD X i [] hiX]
  simp only [Option.bind_eq_bind, Option.some_bind]
  refine (mapOpt_eq_map _ (fun row => rowDist (X.getD i []) row) X
    (fun row hr => ?_)).trans ?_
  · rw [vsub_of_eq_length (X.getD i []) row
      (by rw [rect_getD X d hrect i hiX, hrect row hr])]
    rfl
  · refine congrArg some ?_
    rw [map_eq_range_map (fun row => rowDist (X.getD i []) row) [] X]
    refine List.map_congr_left (fun j hj => ?_)
    have hjX : j < X.length := List.mem_range.mp hj
    rw [rowDist_eq (X.getD i []) (X.getD j []) d (rect_getD X d hrect i hiX)
      (rect_getD X d hrect j hjX), entry]

/-- On a rectangular array, `broadcast2` succeeds and computes the
specification-level distance matrix. -/
theorem broadcast2_eq_specM (X : List (List ℝ)) (d : ℕ) (hrect : rect X d) :
    broadcast2 X = some (specM X d) := by
  rw [broadcast2, specM]
  refine (mapOpt_eq_map _ (fun xi => X.map (fun xj => rowDist xi xj)) X
    (fun xi hxi => ?_)).trans ?_
  · refine mapOpt_eq_map _ _ _ (fun xj hxj => ?_)
    rw [vsub_of_eq_length xi xj (by rw [hrect xi hxi, hrect xj hxj])]
    rfl
  · refine congrArg some ?_
    rw [map_eq_range_map (fun xi => X.map (fun xj => rowDist xi xj)) [] X]
    refine List.map_congr_left (fun i hi => ?_)
    have hiX : i < X.length := List.mem_range.mp hi
    rw [map_eq_range_map (fun xj => rowDist (X.getD i []) xj) [] X]
    refine List.map_congr_left (fun j hj => ?_)
    have hjX : j < X.length := List.mem_range.mp hj
    rw [rowDist_eq (X.getD i []) (X.getD j []) d (rect_getD X d hrect i hiX)
      (rect_getD X d hrect j hjX), entry]

/-- The specification-level matrix has one row per instance. -/
theorem specM_length (X : List (List ℝ)) (d : ℕ) : (specM X d).length = X.length := by
  rw [specM]
  simp

/-- Every row of the specification-level matrix has one entry per instance. -/
theorem specM_row_length (X : List (List ℝ)) (d i : ℕ) (hi : i < X.length) :
    ((specM X d).getD i []).length = X.length := by
  rw [specM, getD_range_map _ _ _ [] hi]
  simp

/-- The distance entry is symmetric in its two row indices. -/
theorem entry_symm (X : List (List ℝ)) (d i j : ℕ) : entry X d i j = entry X d j i := by
  rw [entry, entry]
  refine congrArg Real.sqrt (Finset.sum_congr rfl (fun k _ => ?_))
  ring

/-- The distance from a row to itself is exactly zero. -/
theorem entry_diag (X : List (List ℝ)) (d i : ℕ) : entry X d i i = 0 := by
  rw [entry]
  simp

/-- Triangle inequality for square roots of sums of squared differences,
obtained from the metric structure of Euclidean space. -/
theorem sqrt_sum_sq_triangle (d : ℕ) (a b c : ℕ → ℝ) :
    Real.sqrt (∑ k ∈ Finset.range d, (a k - c k) ^ 2) ≤
      Real.sqrt (∑ k ∈ Finset.range d, (a k - b k) ^ 2) +
      Real.sqrt (∑ k ∈ Finset.range d, (b k - c k) ^ 2) := by
  have key : ∀ x y : ℕ → ℝ,
      Real.sqrt (∑ k ∈ Finset.range d, (x k - y k) ^ 2) =
        dist ((WithLp.equiv 2 (Fin d → ℝ)).symm (fun i : Fin d => x i) :
            EuclideanSpace ℝ (Fin d))
          ((WithLp.equiv 2 (Fin d → ℝ)).symm (fun i : Fin d => y i)) := by
    intro x y
    rw [EuclideanSpace.dist_eq, Finset.sum_range (fun k => (x k - y k) ^ 2)]
    refine congrArg Real.sqrt (Finset.sum_congr rfl (fun i _ => ?_))
    rw [WithLp.equiv_symm_pi_apply, WithLp.equiv_symm_pi_apply, Real.dist_eq, sq_abs]
  rw [key a c, key a b, key b c]
  exact dist_triangle _ _ _

/-- Triangle inequality for the specification-level entries. -/
theorem entry_triangle (X : List (List ℝ)) (d i j k : ℕ) :
    entry X d i k ≤ entry X d i j + entry X d j k := by
  rw [entry, entry, entry]
  exact sqrt_sum_sq_triangle d (fun t => (X.getD i []).getD t 0)
    (fun t => (X.getD j []).getD t 0) (fun t => (X.getD k []).getD t 0)

/-- Reading an index below `n` in `y.take n` reads `y` itself. -/
theorem getD_take (y : List ℝ) (n k : ℕ) (h : k < n) :
    (y.take n).getD k 0 = y.getD k 0 := by
  induction y generalizing n k with
  | nil => simp
  | cons b bs ih =>
      cases n with
      | zero => exact absurd h (Nat.not_lt_zero k)
      | succ n =>
          cases k with
          | zero => rfl
          | succ k =>
              simp only [List.take_succ_cons, List.getD_cons_succ]
              exact ih n k (Nat.lt_of_succ_lt_succ h)

/-- C1: for every well-formed dataset `X` of shape `(n, d)` with `n ≥ 1` and
`d ≥ 1`, the four implementations `loop1`, `loop2`, `broadcast1` and
`broadcast2` return exactly equal distance matrices, entry for entry. -/
theorem C1_implementations_agree (X : List (List ℝ)) (d : ℕ) (hn : 1 ≤ X.length)
    (hd : 1 ≤ d) (hrect : rect X d) :
    loop1 X = loop2 X ∧ loop2 X = broadcast1 X ∧ broadcast1 X = broadcast2 X :=
  ⟨(loop1_eq_specM X d hrect).trans (loop2_eq_specM X d hrect).symm,
   (loop2_eq_specM X d hrect).trans (broadcast1_eq_specM X d hrect).symm,
   (broadcast1_eq_specM X d hrect).trans (broadcast2_eq_specM X d hrect).symm⟩

/-- Witness for C1 at the concrete dataset `[[0], [1]]` of shape `(2, 1)`. -/
theorem C1_implementations_agree_witness :
    1 ≤ ([[(0:ℝ)], [1]] : List (List ℝ)).length ∧ 1 ≤ 1 ∧ rect [[(0:ℝ)], [1]] 1 ∧
      (loop1 [[(0:ℝ)], [1]] = loop2 [[(0:ℝ)], [1]] ∧
       loop2 [[(0:ℝ)], [1]] = broadcast1 [[(0:ℝ)], [1]] ∧
       broadcast1 [[(0:ℝ)], [1]] = broadcast2 [[(0:ℝ)], [1]]) := by
  have hrect : rect [[(0:ℝ)], [1]] 1 := by
    intro row hrow
    rcases List.mem_cons.mp hrow with rfl | hrow
    · rfl
    rcases List.mem_cons.mp hrow with rfl | hrow
    · rfl
    exact absurd hrow (List.not_mem_nil row)
  exact ⟨by decide, le_refl 1, hrect,
    C1_implementations_agree [[(0:ℝ)], [1]] 1 (by decide) (le_refl 1) hrect⟩

/-- C2: for every well-formed dataset of shape `(n, d)` with `n ≥ 1`, `d ≥ 1`,
`loop2` returns an `n × n` matrix whose `(i, j)` entry is
`sqrt (∑ k < d, (X[i][k] - X[j][k])^2)`. -/
theorem C2_loop2_formula (X : List (List ℝ)) (d : ℕ) (hn : 1 ≤ X.length) (hd : 1 ≤ d)
    (hrect : rect X d) :
    ∃ M : List (List ℝ), loop2 X = some M ∧ M.length = X.length ∧
      (∀ i, i < X.length → (M.getD i []).length = X.length) ∧
      ∀ i j, i < X.length → j < X.length →
        (M.getD i []).getD j 0 =
          Real.sqrt (∑ k ∈ Finset.range d,
            ((X.getD i []).getD k 0 - (X.getD j []).getD k 0) ^ 2) := by
  refine ⟨specM X d, loop2_eq_specM X d hrect, specM_length X d,
    fun i hi => specM_row_length X d i hi, fun i j hi hj => ?_⟩
  rw [specM_getD X d i j hi hj, entry]

/-- Witness for C2 at the concrete dataset `[[0, 0], [3, 4]]` of shape
`(2, 2)`. -/
theorem C2_loop2_formula_witness :
    1 ≤ ([[(0:ℝ), 0], [3, 4]] : List (List ℝ)).length ∧ 1 ≤ 2 ∧
      rect [[(0:ℝ), 0], [3, 4]] 2 ∧
      (∃ M : List (List ℝ), loop2 [[(0:ℝ), 0], [3, 4]] = some M ∧
        M.length = ([[(0:ℝ), 0], [3, 4]] : List (List ℝ)).length ∧
        (∀ i, i < ([[(0:ℝ), 0], [3, 4]] : List (List ℝ)).length →
          (M.getD i []).length = ([[(0:ℝ), 0], [3, 4]] : List (List ℝ)).length) ∧
        ∀ i j, i < ([[(0:ℝ), 0], [3, 4]] : List (List ℝ)).length →
          j < ([[(0:ℝ), 0], [3, 4]] : List (List ℝ)).length →
          ((M.getD i []).getD j 0 =
            Real.sqrt (∑ k ∈ Finset.range 2,
              ((([[(0:ℝ), 0], [3, 4]] : List (List ℝ)).getD i []).getD k 0 -
               (([[(0:ℝ), 0], [3, 4]] : List (List ℝ)).getD j []).getD k 0) ^ 2))) := by
  have hrect : rect [[(0:ℝ), 0], [3, 4]] 2 := by
    intro row hrow
    rcases List.mem_cons.mp hrow with rfl | hrow
    · rfl
    rcases List.mem_cons.mp hrow with rfl | hrow
    · rfl
    exact absurd hrow (List.not_mem_nil row)
  exact ⟨by decide, by decide, hrect,
    C2_loop2_formula [[(0:ℝ), 0], [3, 4]] 2 (by decide) (by decide) hrect⟩

/-- C4: on every well-formed dataset of shape `(n, d)` with `n ≥ 1`, `d ≥ 1`,
the matrix returned by `loop2` is symmetric. -/
theorem C4_loop2_symmetric (X : List (List ℝ)) (d : ℕ) (hn : 1 ≤ X.length)
    (hd : 1 ≤ d) (hrect : rect X d) (M : List (List ℝ)) (hM : loop2 X = some M) :
    ∀ i j, i < X.length → j < X.length →
      (M.getD i []).getD j 0 = (M.getD j []).getD i 0 := by
  have hMs : specM X d = M := Option.some.inj ((loop2_eq_specM X d hrect).symm.trans hM)
  subst hMs
  intro i j hi hj
  rw [specM_getD X d i j hi hj, specM_getD X d j i hj hi]
  exact entry_symm X d i j

/-- Witness for C4 at the concrete dataset `[[0], [1]]`, whose `loop2` matrix
is `[[0, 1], [1, 0]]`. -/
theorem C4_loop2_symmetric_witness :
    loop2 [[(0:ℝ)], [1]] = some [[0, 1], [1, 0]] ∧
      ∀ i j, i < ([[(0:ℝ)], [1]] : List (List ℝ)).length →
        j < ([[(0:ℝ)], [1]] : List (List ℝ)).length →
        (([[(0:ℝ), 1], [1, 0]] : List (List ℝ)).getD i []).getD j 0 =
        (([[(0:ℝ), 1], [1, 0]] : List (List ℝ)).getD j []).getD i 0 := by
  have hrect : rect [[(0:ℝ)], [1]] 1 := by
    intro row hrow
    rcases List.mem_cons.mp hrow with rfl | hrow
    · rfl
    rcases List.mem_cons.mp hrow with rfl | hrow
    · rfl
    exact absurd hrow (List.not_mem_nil row)
  have hM : loop2 [[(0:ℝ)], [1]] = some [[0, 1], [1, 0]] := by
    norm_num [loop2, mapOpt, vsub, List.range_succ]
  exact ⟨hM, C4_loop2_symmetric [[(0:ℝ)], [1]] 1 (by decide) (le_refl 1) hrect
    [[0, 1], [1, 0]] hM⟩

/-- C5: on every well-formed dataset of shape `(n, d)` with `n ≥ 1`, `d ≥ 1`,
every diagonal entry of the matrix returned by `loop2` is exactly `0`. -/
theorem C5_loop2_diag_zero (X : List (List ℝ)) (d : ℕ) (hn : 1 ≤ X.length)
    (hd : 1 ≤ d) (hrect : rect X d) (M : List (List ℝ)) (hM : loop2 X = some M) :
    ∀ i, i < X.length → (M.getD i []).getD i 0 = 0 := by
  have hMs : specM X d = M := Option.some.inj ((loop2_eq_specM X d hrect).symm.trans hM)
  subst hMs
  intro i hi
  rw [specM_getD X d i i hi hi]
  exact entry_diag X d i

/-- Witness for C5 at the concrete dataset `[[0], [1]]`. -/
theorem C5_loop2_diag_zero_witness :
    loop2 [[(0:ℝ)], [1]] = some [[0, 1], [1, 0]] ∧
      ∀ i, i < ([[(0:ℝ)], [1]] : List (List ℝ)).length →
        (([[(0:ℝ), 1], [1, 0]] : List (List ℝ)).getD i []).getD i 0 = 0 := by
  have hrect : rect [[(0:ℝ)], [1]] 1 := by
    intro row hrow
    rcases List.mem_cons.mp hrow with rfl | hrow
    · rfl
    rcases List.mem_cons.mp hrow with rfl | hrow
    · rfl
    exact absurd hrow (List.not_mem_nil row)
  have hM : loop2 [[(0:ℝ)], [1]] = some [[0, 1], [1, 0]] := by
    norm_num [loop2, mapOpt, vsub, List.range_succ]
  exact ⟨hM, C5_loop2_diag_zero [[(0:ℝ)], [1]] 1 (by decide) (le_refl 1) hrect
    [[0, 1], [1, 0]] hM⟩

/-- C6: on every well-formed dataset of shape `(n, d)` with `n ≥ 1`, `d ≥ 1`,
the matrix returned by `loop2` satisfies the triangle inequality
`M[i][k] ≤ M[i][j] + M[j][k]` for all triples of row indices. -/
theorem C6_loop2_triangle (X : List (List ℝ)) (d : ℕ) (hn : 1 ≤ X.length)
    (hd : 1 ≤ d) (hrect : rect X d) (M : List (List ℝ)) (hM : loop2 X = some M) :
    ∀ i j k, i < X.length → j < X.length → k < X.length →
      (M.getD i []).getD k 0 ≤ (M.getD i []).getD j 0 + (M.getD j []).getD k 0 := by
  have hMs : specM X d = M := Option.some.inj ((loop2_eq_specM X d hrect).symm.trans hM)
  subst hMs
  intro i j k hi hj hk
  rw [specM_getD X d i k hi hk, specM_getD X d i j hi hj, specM_getD X d j k hj hk]
  exact entry_triangle X d i j k

/-- Witness for C6 at the concrete dataset `[[0], [1]]`. -/
theorem C6_loop2_triangle_witness :
    loop2 [[(0:ℝ)], [1]] = some [[0, 1], [1, 0]] ∧
      ∀ i j k, i < ([[(0:ℝ)], [1]] : List (List ℝ)).length →
        j < ([[(0:ℝ)], [1]] : List (List ℝ)).length →
        k < ([[(0:ℝ)], [1]] : List (List ℝ)).length →
        (([[(0:ℝ), 1], [1, 0]] : List (List ℝ)).getD i []).getD k 0 ≤
          (([[(0:ℝ), 1], [1, 0]] : List (List ℝ)).getD i []).getD j 0 +
          (([[(0:ℝ), 1], [1, 0]] : List (List ℝ)).getD j []).getD k 0 := by
  have hrect : rect [[(0:ℝ)], [1]] 1 := by
    intro row hrow
    rcases List.mem_cons.mp hrow with rfl | hrow
    · rfl
    rcases List.mem_cons.mp hrow with rfl | hrow
    · rfl
    exact absurd hrow (List.not_mem_nil row)
  have hM : loop2 [[(0:ℝ)], [1]] = some [[0, 1], [1, 0]] := by
    norm_num [loop2, mapOpt, vsub, List.range_succ]
  exact ⟨hM, C6_loop2_triangle [[(0:ℝ)], [1]] 1 (by decide) (le_refl 1) hrect
    [[0, 1], [1, 0]] hM⟩

/-- C7: the single-row dataset `[[0, 0]]` is a valid boundary input: `loop2`
returns the `1 × 1` zero matrix `[[0]]` without signalling any error. -/
theorem C7_single_row : loop2 [[(0:ℝ), 0]] = some [[0]] := by
  norm_num [loop2, mapOpt, vsub, List.range_succ]

/-- C8: on the empty dataset (`n = 0`), `loop1`, `loop2` and `broadcast1`
raise no error and return the empty `0 × 0` matrix. -/
theorem C8_empty_dataset :
    loop1 ([] : List (List ℝ)) = some [] ∧
      loop2 ([] : List (List ℝ)) = some [] ∧
      broadcast1 ([] : List (List ℝ)) = some [] :=
  ⟨rfl, rfl, rfl⟩

/-- C9: whenever `y` has at least as many entries as `x`, `eucl_dist x y`
raises no error, returns `sqrt (∑ i < len x, (x[i] - y[i])^2)`, and depends
only on the first `len x` entries of `y`. -/
theorem C9_eucl_dist_ignores_tail (x y : List ℝ) (h : x.length ≤ y.length) :
    eucl_dist x y =
      some (Real.sqrt (∑ k ∈ Finset.range x.length, (x.getD k 0 - y.getD k 0) ^ 2)) ∧
      eucl_dist x y = eucl_dist x (y.take x.length) := by
  refine ⟨eucl_dist_eq x y h, ?_⟩
  rw [eucl_dist_eq x y h, eucl_dist_eq x (y.take x.length)
    (by rw [List.length_take]; exact Nat.le_min.mpr ⟨le_refl _, h⟩)]
  refine congrArg some (congrArg Real.sqrt (Finset.sum_congr rfl (fun k hk => ?_)))
  rw [getD_take y x.length k (Finset.mem_range.mp hk)]

/-- Witness for C9 at `x = [1]`, `y = [1, 5]`. -/
theorem C9_eucl_dist_ignores_tail_witness :
    ([(1:ℝ)] : List ℝ).length ≤ ([(1:ℝ), 5] : List ℝ).length ∧
      (eucl_dist [(1:ℝ)] [(1:ℝ), 5] =
        some (Real.sqrt (∑ k ∈ Finset.range ([(1:ℝ)] : List ℝ).length,
          (([(1:ℝ)] : List ℝ).getD k 0 - ([(1:ℝ), 5] : List ℝ).getD k 0) ^ 2)) ∧
       eucl_dist [(1:ℝ)] [(1:ℝ), 5] =
        eucl_dist [(1:ℝ)] (([(1:ℝ), 5] : List ℝ).take ([(1:ℝ)] : List ℝ).length)) :=
  ⟨by decide, C9_eucl_dist_ignores_tail [(1:ℝ)] [(1:ℝ), 5] (by decide)⟩

/-- C10: for 1-D vectors of the same length, `mult_loop` agrees exactly with
`mult_vect`, both computing the elementwise product `z[i] = x[i] * y[i]`. -/
theorem C10_mult_agree (x y : List ℝ) (h : x.length = y.length) :
    mult_loop x y = mult_vect x y ∧
      mult_vect x y = some (List.zipWith (fun a b => a * b) x y) := by
  have hv : mult_vect x y = some (List.zipWith (fun a b => a * b) x y) := by
    rw [mult_vect, vmul, if_pos h]
  refine ⟨?_, hv⟩
  rw [hv, mult_loop]
  refine (mapOpt_eq_map _ (fun i => x.getD i 0 * y.getD i 0) _ (fun i hi => ?_)).trans ?_
  · have hix : i < x.length := List.mem_range.mp hi
    rw [get?_eq_some_getD x i 0 hix, get?_eq_some_getD y i 0 (lt_of_lt_of_le hix (le_of_eq h))]
    rfl
  · refine congrArg some ?_
    rw [zipWith_eq_range_map (fun a b => a * b) x y h]

/-- Witness for C10 at the notebook's own example `x = [1, 2, 3]`,
`y = [4, 5, 6]`. -/
theorem C10_mult_agree_witness :
    ([(1:ℝ), 2, 3] : List ℝ).length = ([(4:ℝ), 5, 6] : List ℝ).length ∧
      (mult_loop [(1:ℝ), 2, 3] [(4:ℝ), 5, 6] = mult_vect [(1:ℝ), 2, 3] [(4:ℝ), 5, 6] ∧
       mult_vect [(1:ℝ), 2, 3] [(4:ℝ), 5, 6] =
         some (List.zipWith (fun a b => a * b) [(1:ℝ), 2, 3] [(4:ℝ), 5, 6])) :=
  ⟨by decide, C10_mult_agree [(1:ℝ), 2, 3] [(4:ℝ), 5, 6] (by decide)⟩

/-- C3 counterexample: on the empty dataset, `loop2` does not fail; it returns
the empty `0 × 0` matrix, so the claimed InvalidInput failure does not occur. -/
theorem C3_counterexample :
    loop2 ([] : List (List ℝ)) = some [] ∧ loop2 ([] : List (List ℝ)) ≠ none :=
  ⟨rfl, fun hcon => Option.noConfusion hcon⟩

/-- C3 (amended): the code performs no input validation.  When two rows have
different lengths, neither of which is 1 (so the subtraction cannot
broadcast), the row subtraction inside `loop2` fails and no result is
returned; but on an empty dataset (`n = 0`) `loop2` does not fail: it returns
the empty `0 × 0` matrix. -/
theorem C3_no_input_validation :
    loop2 ([] : List (List ℝ)) = some [] ∧
      ∀ (X : List (List ℝ)) (i j : ℕ), i < X.length → j < X.length →
        (X.getD i []).length ≠ (X.getD j []).length →
        (X.getD i []).length ≠ 1 → (X.getD j []).length ≠ 1 →
        loop2 X = none := by
  refine ⟨rfl, fun X i j hi hj hne h1 h2 => ?_⟩
  rw [loop2]
  refine mapOpt_eq_none _ _ i (List.mem_range.mpr hi) ?_
  refine mapOpt_eq_none _ _ j (List.mem_range.mpr hj) ?_
  rw [get?_eq_some_getD X i [] hi, get?_eq_some_getD X j [] hj]
  simp only [Option.bind_eq_bind, Option.some_bind]
  have hv : vsub (X.getD i []) (X.getD j []) = none := by
    rw [vsub, if_neg hne, if_neg h1, if_neg h2]
  rw [hv]
  rfl

/-- Witness for the amended C3: the ragged input `[[1, 2, 3], [4, 5]]` makes
`loop2` fail, while the empty input succeeds. -/
theorem C3_no_input_validation_witness :
    loop2 ([] : List (List ℝ)) = some [] ∧
      loop2 [[(1:ℝ), 2, 3], [4, 5]] = none :=
  ⟨C3_no_input_validation.1,
   C3_no_input_validation.2 [[(1:ℝ), 2, 3], [4, 5]] 0 1 (by decide) (by decide)
     (by decide) (by decide) (by decide)⟩

end Broadcasting
